import Mathlib

/-!
Verification development for the lintai repository.

This file gives a shallow embedding, in Lean 4, of the concurrency and
consistency core of lintai: the document store and findings cache
(src/core/document-store.ts), the debounce layer (src/core/debounce.ts),
the token-bucket rate limiter (src/llm/rate-limiter.ts), the sequential
request queue (src/llm/request-queue.ts), the retry loop of the LLM client
(src/llm/client.ts), the response validation pipeline
(src/llm/response-parser.ts together with src/types/finding.ts), and the
result-handling glue of the LSP server (src/lsp/server.ts with
src/core/analyzer.ts).

Conventions of the embedding:
  * JavaScript numbers that carry fractional values (token counts, JSON
    numbers, confidences) are modelled as rationals; timestamps and counts
    are naturals or integers.
  * JavaScript `Map` objects are modelled as association lists keyed by
    strings; iteration order is irrelevant to every property proved here.
  * The SHA-256 content hash (src/utils/hash.ts delegates to node:crypto,
    which is platform code outside the repository) is a parameter
    `hash : String → String` of the store operations; the source only
    requires it to be a deterministic function of the content.
  * Asynchronous control flow is modelled by explicit event sequencing:
    each `await` boundary of the source becomes an explicit step of a
    state machine, and traces are lists of such steps.
-/

set_option autoImplicit false

namespace Lintai

/-! ## JSON values

Model of the values produced by the platform `JSON.parse` inside
`extractJSON` (src/utils/json-extract.ts).  Object fields are an
association list; `JSON.parse` never yields duplicate keys (later
occurrences overwrite earlier ones), and lookups take the first match.
-/

inductive Json where
  | null : Json
  | bool (b : Bool) : Json
  | num (q : ℚ) : Json
  | str (s : String) : Json
  | arr (elems : List Json) : Json
  | obj (fields : List (String × Json)) : Json

/-- Field lookup, `undefined` becoming `none`.  On non-objects every lookup
is `undefined`, matching JavaScript property access on arrays and
primitives wrapped by the `typeof`-guards in the source. -/
def jget : Json → String → Option Json
  | Json.obj fields, key => fields.lookup key
  | _, _ => none

/-- The `typeof raw === "object" && raw !== null` test of
`sanitizeFinding` (src/llm/response-parser.ts line 69): arrays pass it,
`null` and primitives do not. -/
def isJsObject : Json → Bool
  | Json.obj _ => true
  | Json.arr _ => true
  | _ => false

/-- `typeof x === "string"` projection. -/
def asString : Option Json → Option String
  | some (Json.str s) => some s
  | _ => none

/-- `typeof x === "number"` projection. -/
def asNum : Option Json → Option ℚ
  | some (Json.num q) => some q
  | _ => none

/-! ## Findings (src/types/finding.ts)

`severity` and `category` are kept as raw strings, as they are on the
JSON wire; the zod schemas constrain them to the enumerations below.
-/

structure Range where
  startLine : ℚ
  startCharacter : ℚ
  endLine : ℚ
  endCharacter : ℚ
deriving DecidableEq

structure Finding where
  id : String
  title : String
  severity : String
  message : String
  suggestion : String
  category : String
  confidence : ℚ
  range : Option Range
deriving DecidableEq

/-- `FindingSeveritySchema` enumeration. -/
def severityValues : List String := ["error", "warning", "info", "hint"]

/-- `FindingCategorySchema` enumeration. -/
def categoryValues : List String := ["smell", "practice", "spaghetti", "naming", "safety"]

/-- `z.number().int().min(0)`: a non-negative integral JSON number. -/
def isNonnegInt (q : ℚ) : Bool := q.den == 1 && decide (0 ≤ q)

/-- `RangeSchema` of src/types/finding.ts: all four fields are
non-negative integers. -/
def rangeSchemaValid (r : Range) : Bool :=
  isNonnegInt r.startLine && isNonnegInt r.startCharacter &&
  isNonnegInt r.endLine && isNonnegInt r.endCharacter

/-- `FindingSchema` of src/types/finding.ts: enumerated severity and
category, confidence within [0,1], optional schema-valid range.  The
string-typedness of the text fields is carried by the `Finding` type. -/
def findingSchemaValid (f : Finding) : Bool :=
  severityValues.contains f.severity && categoryValues.contains f.category &&
  decide (0 ≤ f.confidence) && decide (f.confidence ≤ 1) &&
  (match f.range with
   | none => true
   | some r => rangeSchemaValid r)

/-! ## Zod validation (`FindingsArraySchema.safeParse`)

`decodeRange` and `decodeFinding` model the zod schemas as decoders:
they succeed exactly on schema-valid JSON and return the typed data.
-/

/-- `RangeSchema.safeParse` on one JSON value. -/
def decodeRange (j : Json) : Option Range :=
  match asNum (jget j "startLine"), asNum (jget j "startCharacter"),
        asNum (jget j "endLine"), asNum (jget j "endCharacter") with
  | some a, some b, some c, some d =>
      if isNonnegInt a && isNonnegInt b && isNonnegInt c && isNonnegInt d then
        some { startLine := a, startCharacter := b, endLine := c, endCharacter := d }
      else none
  | _, _, _, _ => none

/-- `FindingSchema.safeParse` on one JSON value.  A present-but-invalid
`range` fails the whole finding (zod `.optional()` accepts only absence). -/
def decodeFinding (j : Json) : Option Finding :=
  match asString (jget j "id"), asString (jget j "title"),
        asString (jget j "severity"), asString (jget j "message"),
        asString (jget j "suggestion"), asString (jget j "category"),
        asNum (jget j "confidence") with
  | some idv, some titlev, some sev, some msg, some sug, some cat, some conf =>
      if severityValues.contains sev && categoryValues.contains cat
          && decide (0 ≤ conf) && decide (conf ≤ 1) then
        match jget j "range" with
        | none => some { id := idv, title := titlev, severity := sev, message := msg,
                         suggestion := sug, category := cat, confidence := conf,
                         range := none }
        | some rj =>
          match decodeRange rj with
          | some r => some { id := idv, title := titlev, severity := sev, message := msg,
                             suggestion := sug, category := cat, confidence := conf,
                             range := some r }
          | none => none
      else none
  | _, _, _, _, _, _, _ => none

/-- `FindingsArraySchema.safeParse`: every element must validate. -/
def decodeFindings : List Json → Option (List Finding)
  | [] => some []
  | j :: rest =>
      match decodeFinding j, decodeFindings rest with
      | some f, some fs => some (f :: fs)
      | _, _ => none

/-! ## Salvage path (`sanitizeFinding`, src/llm/response-parser.ts) -/

/-- `String(n).padStart(3, "0")`. -/
def padStart3 (s : String) : String :=
  if s.length ≥ 3 then s else String.mk (List.replicate (3 - s.length) '0') ++ s

/-- `generateId` with the module-level `idCounter` threaded explicitly:
increments the counter and renders `AI` plus the zero-padded value. -/
def generateId (counter : ℕ) : String × ℕ :=
  let c := counter + 1
  ("AI" ++ padStart3 (toString c), c)

/-- Severity with fallback (`sanitizeFinding` lines 86-92). -/
def sanitizeSeverity (raw : Json) : String :=
  match asString (jget raw "severity") with
  | some s => if severityValues.contains s.toLower then s.toLower else "warning"
  | none => "warning"

/-- Category with fallback (lines 94-102). -/
def sanitizeCategory (raw : Json) : String :=
  match asString (jget raw "category") with
  | some s => if categoryValues.contains s.toLower then s.toLower else "practice"
  | none => "practice"

/-- Confidence clamped into bounds (lines 104-108). -/
def sanitizeConfidence (raw : Json) : ℚ :=
  match asNum (jget raw "confidence") with
  | some q => max 0 (min 1 q)
  | none => 1/2

/-- Optional range with all four numbers floored and clamped at zero
(lines 110-127). -/
def sanitizeRange (raw : Json) : Option Range :=
  match jget raw "range" with
  | some rj =>
      if isJsObject rj then
        match asNum (jget rj "startLine"), asNum (jget rj "startCharacter"),
              asNum (jget rj "endLine"), asNum (jget rj "endCharacter") with
        | some a, some b, some c, some d =>
            some { startLine := ((max 0 ⌊a⌋ : ℤ) : ℚ),
                   startCharacter := ((max 0 ⌊b⌋ : ℤ) : ℚ),
                   endLine := ((max 0 ⌊c⌋ : ℤ) : ℚ),
                   endCharacter := ((max 0 ⌊d⌋ : ℤ) : ℚ) }
        | _, _, _, _ => none
      else none
  | none => none

/-- `sanitizeFinding` (src/llm/response-parser.ts lines 68-144), the
salvage normalizer: defaults missing text fields, whitelists severity and
category after lowercasing, clamps confidence into [0,1], floors range
numbers to non-negative integers, and drops entries with neither message
nor title.  The id counter is threaded through because `generateId`
mutates module state. -/
def sanitizeFinding (counter : ℕ) (raw : Json) : Option Finding × ℕ :=
  if isJsObject raw then
    let idc : String × ℕ :=
      match asString (jget raw "id") with
      | some s => (s, counter)
      | none => generateId counter
    let titlev : String :=
      match asString (jget raw "title") with
      | some s => s
      | none => "Untitled Issue"
    let msg : String :=
      match asString (jget raw "message") with
      | some s => s
      | none => ""
    let sug : String :=
      match asString (jget raw "suggestion") with
      | some s => s
      | none => "Review this code section"
    if msg = "" ∧ titlev = "" then (none, idc.2)
    else (some { id := idc.1, title := titlev, severity := sanitizeSeverity raw,
                 message := msg, suggestion := sug, category := sanitizeCategory raw,
                 confidence := sanitizeConfidence raw, range := sanitizeRange raw },
          idc.2)
  else (none, counter)

/-- The salvage loop of `parseResponse` lines 39-49: sanitize every
element, keeping the successes in order. -/
def salvageAll (counter : ℕ) : List Json → List Finding × ℕ
  | [] => ([], counter)
  | j :: rest =>
      match sanitizeFinding counter j with
      | (some f, c) => let (fs, c') := salvageAll c rest; (f :: fs, c')
      | (none, c) => salvageAll c rest

/-! ## `parseResponse` (src/llm/response-parser.ts lines 14-63)

The platform pieces of `extractJSON` (the built-in `JSON.parse` and the
regex strategies of src/utils/json-extract.ts) are abstracted as the
parameter `extract : String → Option Json`; `parseResponse` is modelled
over any such extraction function.
-/

structure ParseResult where
  findings : List Finding
  parseError : Option String
  rawResponse : Option String
deriving DecidableEq

def parseResponse (extract : String → Option Json) (counter : ℕ)
    (response : String) : ParseResult × ℕ :=
  match extract response with
  | none =>
      ({ findings := [], parseError := some "Failed to extract JSON from LLM response",
         rawResponse := some response }, counter)
  | some extracted =>
      let dataArray : List Json :=
        match extracted with
        | Json.arr xs => xs
        | j => [j]
      match decodeFindings dataArray with
      | some fs => ({ findings := fs, parseError := none, rawResponse := some response }, counter)
      | none =>
          let (salvaged, c') := salvageAll counter dataArray
          if salvaged.length > 0 then
            ({ findings := salvaged,
               parseError := some ("Partial parse: " ++ toString salvaged.length ++ "/"
                 ++ toString dataArray.length ++ " findings valid"),
               rawResponse := some response }, c')
          else
            ({ findings := [], parseError := some "No valid findings in LLM response",
               rawResponse := some response }, c')

/-! ## Document store (src/core/document-store.ts)

The `tree` field of `DocumentEntry` (a web-tree-sitter handle, set to
`null` by `set` and only filled by the unrelated `setTree`) is omitted;
no operation relevant to the claims reads it.
-/

structure DocEntry where
  uri : String
  content : String
  contentHash : String
  findings : List Finding
  lastAnalyzed : Option ℕ
  analyzing : Bool
deriving DecidableEq

/-- `Map.set`: replace the binding in place, or append a fresh one. -/
def mapSet {β : Type} (m : List (String × β)) (k : String) (v : β) : List (String × β) :=
  match m with
  | [] => [(k, v)]
  | (k', v') :: rest => if k' = k then (k, v) :: rest else (k', v') :: mapSet rest k v

/-- `Map.delete`. -/
def mapDelete {β : Type} (m : List (String × β)) (k : String) : List (String × β) :=
  m.filter (fun p => p.1 != k)

/-- `computeCacheKey` (src/utils/hash.ts lines 7-13). -/
def computeCacheKey (filePath contentHash configHash : String) : String :=
  filePath ++ ":" ++ contentHash ++ ":" ++ configHash

structure DocumentStore where
  documents : List (String × DocEntry)
  findingsCache : List (String × (List Finding × ℕ))
  configHash : String
deriving DecidableEq

def DocumentStore.empty : DocumentStore :=
  { documents := [], findingsCache := [], configHash := "" }

/-- `DocumentStore.setConfigHash` (lines 24-31): a changed config hash
clears the whole findings cache before being adopted. -/
def DocumentStore.setConfigHash (st : DocumentStore) (h : String) : DocumentStore :=
  if st.configHash ≠ h then { st with findingsCache := [], configHash := h }
  else st

def DocumentStore.get (st : DocumentStore) (uri : String) : Option DocEntry :=
  st.documents.lookup uri

/-- `DocumentStore.set` (lines 37-59): the upsert.  `hash` stands for
`computeHash`.  Returns the updated store together with the entry the
source returns. -/
def DocumentStore.set (hash : String → String) (st : DocumentStore)
    (uri content : String) : DocumentStore × DocEntry :=
  let contentHash := hash content
  match st.documents.lookup uri with
  | some existing =>
      if existing.contentHash = contentHash then (st, existing)
      else
        let entry : DocEntry :=
          { uri := uri, content := content, contentHash := contentHash,
            findings := existing.findings, lastAnalyzed := existing.lastAnalyzed,
            analyzing := false }
        ({ st with documents := mapSet st.documents uri entry }, entry)
  | none =>
      let entry : DocEntry :=
        { uri := uri, content := content, contentHash := contentHash,
          findings := [], lastAnalyzed := none, analyzing := false }
      ({ st with documents := mapSet st.documents uri entry }, entry)

/-- `DocumentStore.setFindings` (lines 68-82): records findings, stamps
`lastAnalyzed` with the current time, clears the in-flight flag, and
caches the findings under (uri, current fingerprint, config hash). -/
def DocumentStore.setFindings (st : DocumentStore) (uri : String)
    (findings : List Finding) (now : ℕ) : DocumentStore :=
  match st.documents.lookup uri with
  | none => st
  | some entry =>
      let entry' := { entry with
        findings := findings
        lastAnalyzed := some now
        analyzing := false }
      let cacheKey := computeCacheKey uri entry.contentHash st.configHash
      { st with
        documents := mapSet st.documents uri entry'
        findingsCache := mapSet st.findingsCache cacheKey (findings, now) }

/-- `DocumentStore.setAnalyzing` (lines 84-89). -/
def DocumentStore.setAnalyzing (st : DocumentStore) (uri : String)
    (analyzing : Bool) : DocumentStore :=
  match st.documents.lookup uri with
  | none => st
  | some entry =>
      { st with documents := mapSet st.documents uri { entry with analyzing := analyzing } }

/-- `DocumentStore.getCachedFindings` (lines 91-104): a hit requires the
entry's current fingerprint and the store's current config hash. -/
def DocumentStore.getCachedFindings (st : DocumentStore) (uri : String) :
    Option (List Finding) :=
  match st.documents.lookup uri with
  | none => none
  | some entry =>
      (st.findingsCache.lookup (computeCacheKey uri entry.contentHash st.configHash)).map
        Prod.fst

/-- `DocumentStore.delete` (lines 106-115). -/
def DocumentStore.delete (st : DocumentStore) (uri : String) : DocumentStore :=
  let st' :=
    match st.documents.lookup uri with
    | some entry =>
        { st with findingsCache :=
            mapDelete st.findingsCache (computeCacheKey uri entry.contentHash st.configHash) }
    | none => st
  { st' with documents := mapDelete st'.documents uri }

/-! ## Debouncer (src/core/debounce.ts lines 14-53)

`timeoutId` is modelled as the absolute deadline of the pending timer.
-/

structure DebounceState (α : Type) where
  timeoutId : Option ℕ
  lastArgs : Option α
deriving DecidableEq

def DebounceState.init {α : Type} : DebounceState α := ⟨none, none⟩

/-- A call to the debounced function at time `now`: record the latest
arguments, clear any pending timer, start a fresh `waitMs` timer. -/
def dcall {α : Type} (waitMs now : ℕ) (args : α) (_ : DebounceState α) : DebounceState α :=
  { timeoutId := some (now + waitMs), lastArgs := some args }

/-- The timer callback: run the action with the recorded arguments (if
any) and clear the pending-call record. -/
def dfire {α : Type} (s : DebounceState α) : DebounceState α × Option α :=
  (⟨none, none⟩, s.lastArgs)

/-- `cancel`: discard timer and pending arguments without running. -/
def dcancel {α : Type} (_ : DebounceState α) : DebounceState α := ⟨none, none⟩

/-- `flush`: cancel the timer and run the pending call now, if any. -/
def dflush {α : Type} (s : DebounceState α) : DebounceState α × Option α :=
  (⟨none, none⟩, s.lastArgs)

/-- Event-loop run of a burst of calls: before each call the pending
timer fires if it is already due, and after the last call the remaining
timer fires at its deadline.  Returns the invocations of the wrapped
action as (time, arguments) pairs, together with the final state. -/
def runBurst {α : Type} (waitMs : ℕ) : List (ℕ × α) → DebounceState α →
    List (ℕ × α) × DebounceState α
  | [], s =>
      match s.timeoutId with
      | some dl =>
          match s.lastArgs with
          | some a => ([(dl, a)], ⟨none, none⟩)
          | none => ([], ⟨none, none⟩)
      | none => ([], s)
  | (t, args) :: rest, s =>
      let firedAndState : List (ℕ × α) × DebounceState α :=
        match s.timeoutId with
        | some dl =>
            if dl ≤ t then
              (match s.lastArgs with
               | some a => ([(dl, a)], ⟨none, none⟩)
               | none => ([], ⟨none, none⟩))
            else ([], s)
        | none => ([], s)
      let next := runBurst waitMs rest (dcall waitMs t args firedAndState.2)
      (firedAndState.1 ++ next.1, next.2)

/-! ## Rate limiter (src/llm/rate-limiter.ts)

Token counts are rationals, as in the source they are fractional
JavaScript numbers; timestamps are integers so that the `now - lastRefill`
subtraction matches JavaScript arithmetic exactly.
-/

structure RateLimiter where
  maxTokens : ℚ
  refillRate : ℚ
  tokens : ℚ
  lastRefill : ℤ
deriving DecidableEq

/-- The constructor: capacity and refill rate derived from the
requests-per-minute argument, bucket initially full. -/
def RateLimiter.create (requestsPerMinute : ℚ) (now : ℤ) : RateLimiter :=
  { maxTokens := requestsPerMinute, refillRate := requestsPerMinute / 60000,
    tokens := requestsPerMinute, lastRefill := now }

/-- `refillTokens` (lines 25-32): lazy refill from elapsed wall time,
capped at capacity. -/
def RateLimiter.refillTokens (rl : RateLimiter) (now : ℤ) : RateLimiter :=
  let elapsed : ℚ := ((now - rl.lastRefill : ℤ) : ℚ)
  { rl with tokens := min rl.maxTokens (rl.tokens + elapsed * rl.refillRate),
            lastRefill := now }

/-- `tryAcquire` (lines 46-55): refill, then deduct one token if at least
one is available. -/
def RateLimiter.tryAcquire (rl : RateLimiter) (now : ℤ) : Bool × RateLimiter :=
  let rl' := rl.refillTokens now
  if 1 ≤ rl'.tokens then (true, { rl' with tokens := rl'.tokens - 1 })
  else (false, rl')

/-- A sequence of `tryAcquire` calls at the given instants, collecting
the results in order. -/
def tryAcquireSeq (rl : RateLimiter) : List ℤ → List Bool × RateLimiter
  | [] => ([], rl)
  | t :: ts =>
      let (b, rl') := rl.tryAcquire t
      let (bs, rl'') := tryAcquireSeq rl' ts
      (b :: bs, rl'')

/-! ## Request queue (src/llm/request-queue.ts)

A queued request is modelled by its id, enqueue timestamp and abort flag;
the executable action and the promise callbacks are represented by the
event log: settling a promise or starting an action appends an event.
-/

structure QReq where
  id : String
  timestamp : ℕ
  aborted : Bool
deriving DecidableEq

inductive QEv where
  | rejectedSuperseded (id : String) (timestamp : ℕ)
  | rejectedStale (id : String) (timestamp : ℕ)
  | rejectedCancelled (id : String) (timestamp : ℕ)
  | started (id : String) (timestamp : ℕ) (startedAt : ℕ)
deriving DecidableEq

/-- `maxQueueAge` (line 24). -/
def maxQueueAge : ℕ := 30000

structure RequestQueue where
  queue : List QReq
  processing : Bool
deriving DecidableEq

def RequestQueue.empty : RequestQueue := { queue := [], processing := false }

/-- `cancelById` (lines 75-88): reject every queued entry with this id
with the superseded signal and remove it. -/
def RequestQueue.cancelById (q : RequestQueue) (id : String) :
    RequestQueue × List QEv :=
  ({ q with queue := q.queue.filter (fun r => r.id != id) },
   (q.queue.filter (fun r => r.id == id)).map
     (fun r => QEv.rejectedSuperseded r.id r.timestamp))

/-- `cleanupStaleRequests` (lines 116-132): reject and remove every
entry whose age exceeds `maxQueueAge`. -/
def RequestQueue.cleanupStaleRequests (q : RequestQueue) (now : ℕ) :
    RequestQueue × List QEv :=
  let stale := q.queue.filter (fun r => decide (maxQueueAge < now - r.timestamp))
  if stale.length > 0 then
    ({ q with queue := q.queue.filter (fun r => decide (now - r.timestamp ≤ maxQueueAge)) },
     stale.map (fun r => QEv.rejectedStale r.id r.timestamp))
  else (q, [])

/-- The dequeue step of `processNext` (lines 134-159): shift heads,
settling aborted ones with a cancellation rejection (the `finally`
re-entry), until either an action starts (processing stays true) or the
queue drains.  No staleness check happens here. -/
def processNextGo (now : ℕ) : List QReq → List QReq × Bool × List QEv
  | [] => ([], false, [])
  | r :: rest =>
      if r.aborted then
        let (q', p', evs) := processNextGo now rest
        (q', p', QEv.rejectedCancelled r.id r.timestamp :: evs)
      else (rest, true, [QEv.started r.id r.timestamp now])

def RequestQueue.processNext (q : RequestQueue) (now : ℕ) :
    RequestQueue × List QEv :=
  if q.processing then (q, [])
  else
    let (queue', proc, evs) := processNextGo now q.queue
    ({ queue := queue', processing := proc }, evs)

/-- The tail of an execution: the `finally` clause clears `processing`
and re-invokes `processNext`. -/
def RequestQueue.completeCurrent (q : RequestQueue) (now : ℕ) :
    RequestQueue × List QEv :=
  RequestQueue.processNext { q with processing := false } now

/-- `enqueue` (lines 34-70): supersede same-id entries, sweep stale
entries, append the new entry, trigger processing. -/
def RequestQueue.enqueue (q : RequestQueue) (now : ℕ) (id : String) :
    RequestQueue × List QEv :=
  let (q1, evs1) := q.cancelById id
  let (q2, evs2) := q1.cleanupStaleRequests now
  let q3 : RequestQueue := { q2 with queue := q2.queue ++ [⟨id, now, false⟩] }
  let (q4, evs3) := q3.processNext now
  (q4, evs1 ++ evs2 ++ evs3)

/-! ## Retry loop of the LLM client (src/llm/client.ts lines 364-446)

The outcome of each outbound attempt is prescribed by a schedule list;
the loop consumes one schedule element per attempt.  `waits` collects the
backoff sleeps performed, in order.  The initial `rateLimiter.acquire()`
(line 370) is modelled separately by `RateLimiter`; the provider dispatch
(line 377) selects which HTTP function runs and is orthogonal to the
retry policy.
-/

inductive AttemptOutcome where
  | ok (content : String)
  | httpErr (status : ℕ)
  | timeoutErr
deriving DecidableEq

inductive ExecErr where
  | httpErr (status : ℕ)
  | timeoutErr
deriving DecidableEq

inductive ExecResult where
  | success (content : String) (waits : List ℕ)
  | failure (err : ExecErr) (waits : List ℕ)
  | outOfSchedule
deriving DecidableEq

/-- `maxRetries` (line 373). -/
def maxRetries : ℕ := 3

/-- `maxRateLimitRetries` (line 374). -/
def maxRateLimitRetries : ℕ := 5

/-- The `while (true)` loop of `executeLLMRequest`, lines 382-445.
`attempt` and `rateLimitRetries` are the loop counters before the next
iteration. -/
def executeLoop : ℕ → ℕ → List ℕ → List AttemptOutcome → ExecResult
  | _, _, _, [] => ExecResult.outOfSchedule
  | attempt, rateLimitRetries, waits, o :: rest =>
      let a := attempt + 1
      match o with
      | AttemptOutcome.ok c => ExecResult.success c waits
      | AttemptOutcome.httpErr s =>
          if s == 401 || s == 403 then
            ExecResult.failure (ExecErr.httpErr s) waits
          else if s == 429 then
            let rl := rateLimitRetries + 1
            if rl > maxRateLimitRetries then ExecResult.success "[]" waits
            else executeLoop a rl (waits ++ [min (2 ^ rl * 1000) 30000]) rest
          else if 500 ≤ s ∧ a < maxRetries then
            executeLoop a rateLimitRetries (waits ++ [1000 * a]) rest
          else ExecResult.failure (ExecErr.httpErr s) waits
      | AttemptOutcome.timeoutErr =>
          if a < maxRetries then executeLoop a rateLimitRetries waits rest
          else ExecResult.failure ExecErr.timeoutErr waits

/-- `executeLLMRequest` run from its initial counters. -/
def executeLLMRequest (schedule : List AttemptOutcome) : ExecResult :=
  executeLoop 0 0 [] schedule

/-! ## Analyzer result handling (src/core/analyzer.ts)

`generateLocalFindings` (lines 311-376) and the catch clause of `analyze`
(lines 248-304) for the LSP analyzer.
-/

structure FunctionMetrics where
  name : String
  startLine : ℕ
  endLine : ℕ
  lineCount : ℕ
  maxNestingDepth : ℕ
deriving DecidableEq

structure FileMetrics where
  totalLines : ℕ
  codeLines : ℕ
  maxNestingDepth : ℕ
  estimatedComplexity : ℕ
  functionCount : ℕ
  longestFunctionLines : ℕ
  functions : List FunctionMetrics
deriving DecidableEq

/-- The per-function body of the `generateLocalFindings` loop: LOCAL001
for long functions, LOCAL002 for deep nesting. -/
def localFindingsForFn (fn : FunctionMetrics) : List Finding :=
  (if fn.lineCount > 50 then
    [{ id := "LOCAL001", title := "Long Function",
       severity := if fn.lineCount > 100 then "warning" else "info",
       message := "Function '" ++ fn.name ++ "' has " ++ toString fn.lineCount
         ++ " lines. Consider breaking it into smaller functions.",
       suggestion := "Extract related logic into separate helper functions.",
       category := "smell", confidence := 9/10,
       range := some { startLine := (fn.startLine : ℚ), startCharacter := 0,
                       endLine := (fn.endLine : ℚ), endCharacter := 0 } }]
   else [])
  ++
  (if fn.maxNestingDepth > 4 then
    [{ id := "LOCAL002", title := "Deep Nesting",
       severity := if fn.maxNestingDepth > 6 then "warning" else "info",
       message := "Function '" ++ fn.name ++ "' has nesting depth of "
         ++ toString fn.maxNestingDepth ++ ". Deep nesting hurts readability.",
       suggestion := "Use early returns, extract conditions into functions, or restructure control flow.",
       category := "smell", confidence := 17/20,
       range := some { startLine := (fn.startLine : ℚ), startCharacter := 0,
                       endLine := (fn.endLine : ℚ), endCharacter := 0 } }]
   else [])

/-- `generateLocalFindings`: the local heuristic fallback.  `codeSmells`
is `config.rules.codeSmells`. -/
def generateLocalFindings (codeSmells : Bool) (metrics : FileMetrics) : List Finding :=
  if codeSmells then
    (metrics.functions.map localFindingsForFn).flatten ++
    (if metrics.estimatedComplexity > 20 then
      [{ id := "LOCAL003", title := "High File Complexity",
         severity := if metrics.estimatedComplexity > 40 then "warning" else "info",
         message := "File has estimated cyclomatic complexity of "
           ++ toString metrics.estimatedComplexity
           ++ ". Consider splitting into multiple files.",
         suggestion := "Break down into smaller modules with single responsibilities.",
         category := "smell", confidence := 7/10, range := none }]
     else [])
  else []

/-- What `analyze` returns to `triggerAnalysis`; the constant
`cached: false` and the timing metrics are omitted. -/
structure AnalysisResult where
  findings : List Finding
  error : Option String
deriving DecidableEq

/-- The ways `sendLLMRequest` can settle, as distinguished by the catch
clause of `analyze`. -/
inductive LLMFailure where
  | llmErr (status : ℕ) (msg : String)
  | timeoutName
  | superseded
  | otherMsg (msg : String)
deriving DecidableEq

inductive LLMOutcome where
  | success (content : String)
  | failure (f : LLMFailure)
deriving DecidableEq

/-- The catch clause of the LSP `analyze` (src/core/analyzer.ts lines
248-304): auth errors and server errors get fixed messages, a timeout is
silently replaced by the local heuristic result, a superseded request
becomes an empty result with no error, and every other failure carries
its message; in all remaining cases the local heuristic findings are the
fallback.  `msg` inside `llmErr` is the `LLMError.message` text. -/
def analyzeCatch (provider : String) (codeSmells : Bool) (metrics : FileMetrics) :
    LLMFailure → AnalysisResult
  | LLMFailure.llmErr s msg =>
      let errorMessage :=
        if s == 401 || s == 403 then
          "Invalid API key for " ++ provider ++ ". Check your API key configuration."
        else if 500 ≤ s then "LLM service temporarily unavailable."
        else msg
      { findings := generateLocalFindings codeSmells metrics, error := some errorMessage }
  | LLMFailure.timeoutName =>
      { findings := generateLocalFindings codeSmells metrics, error := none }
  | LLMFailure.superseded =>
      { findings := [], error := none }
  | LLMFailure.otherMsg m =>
      { findings := generateLocalFindings codeSmells metrics, error := some m }

/-- The tail of `analyze` after `sendLLMRequest` settles (lines 219-304):
a fulfilled request is parsed by `parseResponse`, a rejected one goes
through the catch clause. -/
def analyzeResult (extract : String → Option Json) (counter : ℕ) (provider : String)
    (codeSmells : Bool) (metrics : FileMetrics) : LLMOutcome → AnalysisResult
  | LLMOutcome.success content =>
      let pr := (parseResponse extract counter content).1
      { findings := pr.findings, error := pr.parseError }
  | LLMOutcome.failure f => analyzeCatch provider codeSmells metrics f

/-- Lift the retry-loop outcome to the `analyze` boundary.  A success is
a fulfilled request; an exhausted failure rejects with the corresponding
error (`LLMError` keeps its status, a timeout keeps the `TimeoutError`
name). -/
def llmOutcomeOfExec (msg : String) : ExecResult → Option LLMOutcome
  | ExecResult.success c _ => some (LLMOutcome.success c)
  | ExecResult.failure (ExecErr.httpErr s) _ => some (LLMOutcome.failure (LLMFailure.llmErr s msg))
  | ExecResult.failure ExecErr.timeoutErr _ => some (LLMOutcome.failure LLMFailure.timeoutName)
  | ExecResult.outOfSchedule => none

/-- The documented behavior of `extractJSON` on the literal `"[]"`: the
direct `JSON.parse` strategy succeeds with the empty array.  Used to
evaluate the pipeline on the rate-limit fallback content. -/
def extractEmptyArray : String → Option Json :=
  fun s => if s = "[]" then some (Json.arr []) else none

/-! ## LSP orchestrator (src/lsp/server.ts)

The event-loop glue: `onDidChangeContent` (lines 116-125),
`getOrCreateDebouncedAnalysis` (lines 158-173) and `triggerAnalysis`
(lines 175-249).  Asynchrony is explicit: an analysis that has passed the
in-flight guard is recorded in `active` until its result is delivered.
The API-key validation inside `triggerAnalysis` is assumed valid
(`validateAPIKey` succeeds), which is the configuration all the claims
speak about.
-/

/-- A delivered LSP diagnostic: either the image of a finding under
`findingToDiagnostic` (src/core/diagnostics-mapper.ts lines 68-94; its
severity adjustment and range clamping are irrelevant to delivery
discipline, so the originating finding is kept whole) or a system
diagnostic from `createErrorDiagnostic` (lines 112-123). -/
inductive Diag where
  | fromFinding (f : Finding)
  | systemErr (message : String)
deriving DecidableEq

/-- `findingsToDiagnostics` (lines 99-107). -/
def findingsToDiagnostics (findings : List Finding) : List Diag :=
  findings.map Diag.fromFinding

/-- `createErrorDiagnostic`. -/
def createErrorDiagnostic (message : String) : Diag := Diag.systemErr message

/-- Remove the first pair with the given key. -/
def eraseFirstKey {β : Type} : List (String × β) → String → List (String × β)
  | [], _ => []
  | (k, v) :: rest, key => if k = key then rest else (k, v) :: eraseFirstKey rest key

structure LoopState where
  store : DocumentStore
  deb : List (String × DebounceState String)
  active : List (String × String)
  runs : List (ℕ × String × String)
  sent : List (String × List Diag)
deriving DecidableEq

def LoopState.init : LoopState :=
  { store := DocumentStore.empty, deb := [], active := [], runs := [], sent := [] }

/-- The guard and entry of `triggerAnalysis` (lines 180-189): missing
entry or an in-flight analysis aborts silently; otherwise the in-flight
flag is set and `analyze` is started on the document's current text. -/
def triggerStart (t : ℕ) (st : DocumentStore) (active : List (String × String))
    (runs : List (ℕ × String × String)) (uri : String) :
    DocumentStore × List (String × String) × List (ℕ × String × String) :=
  match st.get uri with
  | none => (st, active, runs)
  | some entry =>
      if entry.analyzing then (st, active, runs)
      else (st.setAnalyzing uri true,
            active ++ [(uri, entry.content)],
            runs ++ [(t, uri, entry.content)])

/-- The continuation of `triggerAnalysis` once `analyze` has settled
(lines 213-235 plus the `finally`): store the findings, build the
diagnostics (appending an informational system diagnostic when the result
carries an error), send them, and clear the in-flight flag. -/
def handleAnalysisResult (now : ℕ) (st : DocumentStore) (uri : String)
    (r : AnalysisResult) : DocumentStore × (String × List Diag) :=
  let st1 := st.setFindings uri r.findings now
  let diags := findingsToDiagnostics r.findings ++
    (match r.error with
     | some e => [createErrorDiagnostic e]
     | none => [])
  let st2 := st1.setAnalyzing uri false
  (st2, (uri, diags))

inductive LoopEvent where
  | didChange (t : ℕ) (uri : String) (content : String)
  | timerFire (t : ℕ) (uri : String)
  | deliver (t : ℕ) (uri : String) (result : AnalysisResult)
deriving DecidableEq

/-- One event-loop turn of the LSP server.  `didChange` updates the
store and (re)arms the per-document debounce timer; `timerFire` runs the
debounced action when its deadline is reached, which calls
`triggerAnalysis` on the document's current text; `deliver` is the
resumption of a pending `await analyze(...)` with its result. -/
def stepLoop (hash : String → String) (debounceMs : ℕ) (s : LoopState) :
    LoopEvent → LoopState
  | LoopEvent.didChange t uri content =>
      let (store', _) := s.store.set hash uri content
      let debState := (s.deb.lookup uri).getD DebounceState.init
      { s with store := store', deb := mapSet s.deb uri (dcall debounceMs t uri debState) }
  | LoopEvent.timerFire t uri =>
      match s.deb.lookup uri with
      | some debState =>
          if debState.timeoutId = some t then
            let (debState', argsOpt) := dfire debState
            let s1 := { s with deb := mapSet s.deb uri debState' }
            match argsOpt with
            | some docUri =>
                let (store', active', runs') := triggerStart t s1.store s1.active s1.runs docUri
                { s1 with store := store', active := active', runs := runs' }
            | none => s1
          else s
      | none => s
  | LoopEvent.deliver t uri result =>
      match s.active.lookup uri with
      | some _ =>
          let (store', msg) := handleAnalysisResult t s.store uri result
          { s with store := store'
                   active := eraseFirstKey s.active uri
                   sent := s.sent ++ [msg] }
      | none => s

/-- Run a trace of events from a state. -/
def runLoop (hash : String → String) (debounceMs : ℕ) (s : LoopState)
    (events : List LoopEvent) : LoopState :=
  events.foldl (stepLoop hash debounceMs) s

/-- Number of in-flight analyses for one identity. -/
def inFlightCount (s : LoopState) (uri : String) : ℕ :=
  (s.active.filter (fun p => p.1 == uri)).length

/-! ## Concrete instances used by witnesses and counterexamples -/

def exFinding : Finding :=
  { id := "F1", title := "T", severity := "warning", message := "m",
    suggestion := "s", category := "smell", confidence := 1, range := none }

def exEntry : DocEntry :=
  { uri := "file:///a.ts", content := "const x = 1;", contentHash := "const x = 1;",
    findings := [exFinding], lastAnalyzed := some 5, analyzing := true }

def exStore : DocumentStore :=
  { documents := [("file:///a.ts", exEntry)],
    findingsCache := [(computeCacheKey "file:///a.ts" "const x = 1;" "cfg", ([exFinding], 5))],
    configHash := "cfg" }

def exMetrics : FileMetrics :=
  { totalLines := 80, codeLines := 70, maxNestingDepth := 2, estimatedComplexity := 5,
    functionCount := 1, longestFunctionLines := 60,
    functions := [{ name := "bigFn", startLine := 1, endLine := 60, lineCount := 60,
                    maxNestingDepth := 2 }] }

/-- A server state with one fresh analysis result for `file:///a.ts`
(stored and cached) and one analysis in flight for the same identity:
the situation right before a superseded request's outcome is delivered. -/
def c1Start : LoopState :=
  { store := exStore, deb := [], active := [("file:///a.ts", "const x = 1;")],
    runs := [], sent := [] }

/-- What `analyze` returns when `sendLLMRequest` rejected with
"Request superseded by newer request" (src/core/analyzer.ts lines
274-285). -/
def c1SupersededOutcome : AnalysisResult :=
  analyzeResult extractEmptyArray 0 "openai" true exMetrics
    (LLMOutcome.failure LLMFailure.superseded)

/-- The state after the superseded outcome flows through the
`triggerAnalysis` continuation. -/
def c1After : LoopState :=
  stepLoop (fun s => s) 300 c1Start
    (LoopEvent.deliver 500 "file:///a.ts" c1SupersededOutcome)

/-! # Theorems

Helper lemmas first, then one theorem per claim (with witnesses and
counterexamples where required).
-/

theorem lookup_mapSet_self {β : Type} (m : List (String × β)) (k : String) (v : β) :
    (mapSet m k v).lookup k = some v := by
  induction m with
  | nil => simp [mapSet, List.lookup]
  | cons p rest ih =>
      obtain ⟨k', v'⟩ := p
      by_cases h : k' = k
      · subst h
        simp [mapSet, List.lookup]
      · have hb : (k == k') = false := beq_eq_false_iff_ne.mpr (Ne.symm h)
        simp only [mapSet, if_neg h, List.lookup, hb, ih]

theorem lookup_mapSet_ne {β : Type} (m : List (String × β)) (k k' : String) (v : β)
    (h : k' ≠ k) : (mapSet m k v).lookup k' = m.lookup k' := by
  have hb : (k' == k) = false := beq_eq_false_iff_ne.mpr h
  induction m with
  | nil => simp [mapSet, List.lookup, hb]
  | cons p rest ih =>
      obtain ⟨k'', v''⟩ := p
      by_cases h2 : k'' = k
      · subst h2
        simp [mapSet, List.lookup, hb]
      · simp only [mapSet, if_neg h2, List.lookup]
        cases hc : k' == k'' <;> simp [hc, ih]

/-- C6: after `setConfigFingerprint(f2)` with `f2` different from the
stored fingerprint `f1`, the entire findings cache is cleared before the
new value is adopted, so `getCached` for every previously-cached identity
returns absent, even when that identity's content is unchanged. -/
theorem C6_config_invalidation (st : DocumentStore) (f2 : String)
    (h : f2 ≠ st.configHash) :
    (st.setConfigHash f2).findingsCache = [] ∧
    (st.setConfigHash f2).configHash = f2 ∧
    ∀ uri, (st.setConfigHash f2).getCachedFindings uri = none := by
  have hne : st.configHash ≠ f2 := Ne.symm h
  refine ⟨by simp [DocumentStore.setConfigHash, hne], by simp [DocumentStore.setConfigHash, hne], ?_⟩
  intro uri
  simp only [DocumentStore.setConfigHash, if_pos hne, DocumentStore.getCachedFindings]
  cases st.documents.lookup uri <;> simp [List.lookup]

theorem C6_config_invalidation_witness :
    ("newcfg" ≠ exStore.configHash) ∧
    (exStore.setConfigHash "newcfg").getCachedFindings "file:///a.ts" = none :=
  ⟨by decide, (C6_config_invalidation exStore "newcfg" (by decide)).2.2 "file:///a.ts"⟩

/-- C7 counterexample: a repeated identical upsert does trigger a second
analysis.  Two change events with the same content, farther apart than
the debounce window, produce two analysis invocations for the identical
content, because `onDidChangeContent` schedules the debounced trigger
unconditionally and `triggerAnalysis` never consults the cache. -/
theorem C7_counterexample :
    (runLoop (fun s => s) 300 LoopState.init
      [LoopEvent.didChange 0 "file:///a.ts" "const x = 1;",
       LoopEvent.timerFire 300 "file:///a.ts",
       LoopEvent.deliver 350 "file:///a.ts" { findings := [], error := none },
       LoopEvent.didChange 1000 "file:///a.ts" "const x = 1;",
       LoopEvent.timerFire 1300 "file:///a.ts"]).runs =
    [(300, "file:///a.ts", "const x = 1;"), (1300, "file:///a.ts", "const x = 1;")] := by
  decide

/-- C7 (amended): `upsert` computes the content fingerprint; if it equals
the stored one the existing entry is returned with the store unmodified,
otherwise content and fingerprint are replaced while findings and
last-analyzed timestamp are preserved and the in-flight flag is cleared.
(The further part of the original claim — that a repeated identical
upsert never yields a second analysis trigger — fails, see the
counterexample.) -/
theorem C7_upsert_contract (hash : String → String) (st : DocumentStore)
    (uri content : String) (e : DocEntry) (h : st.get uri = some e) :
    (e.contentHash = hash content → st.set hash uri content = (st, e)) ∧
    (e.contentHash ≠ hash content →
      ∃ e', st.set hash uri content =
          ({ st with documents := mapSet st.documents uri e' }, e') ∧
        e'.content = content ∧ e'.contentHash = hash content ∧
        e'.findings = e.findings ∧ e'.lastAnalyzed = e.lastAnalyzed ∧
        e'.analyzing = false) := by
  have h' : st.documents.lookup uri = some e := h
  constructor
  · intro heq
    simp only [DocumentStore.set, h', if_pos heq]
  · intro hne
    refine ⟨{ uri := uri, content := content, contentHash := hash content,
              findings := e.findings, lastAnalyzed := e.lastAnalyzed,
              analyzing := false }, ?_, rfl, rfl, rfl, rfl, rfl⟩
    simp only [DocumentStore.set, h', if_neg hne]

theorem C7_upsert_contract_witness :
    exStore.get "file:///a.ts" = some exEntry ∧
    exEntry.contentHash = (fun s => s) "const x = 1;" ∧
    DocumentStore.set (fun s => s) exStore "file:///a.ts" "const x = 1;" = (exStore, exEntry) ∧
    exEntry.contentHash ≠ (fun s => s) "let y = 2;" ∧
    (∃ e', DocumentStore.set (fun s => s) exStore "file:///a.ts" "let y = 2;" =
        ({ exStore with documents := mapSet exStore.documents "file:///a.ts" e' }, e') ∧
      e'.content = "let y = 2;" ∧ e'.contentHash = (fun s => s) "let y = 2;" ∧
      e'.findings = exEntry.findings ∧ e'.lastAnalyzed = exEntry.lastAnalyzed ∧
      e'.analyzing = false) :=
  ⟨rfl, rfl,
   (C7_upsert_contract (fun s => s) exStore "file:///a.ts" "const x = 1;" exEntry rfl).1 rfl,
   by decide,
   (C7_upsert_contract (fun s => s) exStore "file:///a.ts" "let y = 2;" exEntry rfl).2 (by decide)⟩

/-- C3 counterexample: a change event with new content while an analysis
is in flight allows a second concurrent analysis of the same identity.
`DocumentStore.set` replaces the entry with `analyzing: false` whenever
the fingerprint changes, so the in-flight guard of `triggerAnalysis`
passes again while the first analysis has not yet delivered: after this
trace two analyses are in flight for the same identity. -/
theorem C3_counterexample :
    inFlightCount (runLoop (fun s => s) 300 LoopState.init
      [LoopEvent.didChange 0 "file:///a.ts" "c1",
       LoopEvent.timerFire 300 "file:///a.ts",
       LoopEvent.didChange 400 "file:///a.ts" "c2",
       LoopEvent.timerFire 700 "file:///a.ts"]) "file:///a.ts" = 2 := by
  decide

/-- C3 (amended): the at-most-one-in-flight guarantee holds as long as
the entry's fingerprint is unchanged: an upsert with identical content
leaves the in-flight entry untouched, and the `triggerAnalysis` guard
then blocks any further analysis for that identity. -/
theorem C3_guard_same_content (hash : String → String) (st : DocumentStore)
    (uri content : String) (e : DocEntry) (t : ℕ)
    (active : List (String × String)) (runs : List (ℕ × String × String))
    (h1 : st.get uri = some e) (h2 : e.analyzing = true)
    (h3 : e.contentHash = hash content) :
    st.set hash uri content = (st, e) ∧
    triggerStart t st active runs uri = (st, active, runs) := by
  have h' : st.documents.lookup uri = some e := h1
  constructor
  · simp only [DocumentStore.set, h', if_pos h3]
  · simp only [triggerStart, h1, h2, if_pos]

theorem C3_guard_same_content_witness :
    exStore.get "file:///a.ts" = some exEntry ∧ exEntry.analyzing = true ∧
    exEntry.contentHash = (fun s => s) "const x = 1;" ∧
    DocumentStore.set (fun s => s) exStore "file:///a.ts" "const x = 1;" = (exStore, exEntry) ∧
    triggerStart 42 exStore [] [] "file:///a.ts" = (exStore, [], []) :=
  ⟨rfl, rfl, rfl,
   (C3_guard_same_content (fun s => s) exStore "file:///a.ts" "const x = 1;" exEntry 42 [] []
     rfl rfl rfl).1,
   (C3_guard_same_content (fun s => s) exStore "file:///a.ts" "const x = 1;" exEntry 42 [] []
     rfl rfl rfl).2⟩

theorem setFindings_spec (st : DocumentStore) (uri : String) (findings : List Finding)
    (now : ℕ) (e : DocEntry) (h : st.documents.lookup uri = some e) :
    st.setFindings uri findings now =
      { st with
        documents := mapSet st.documents uri
          { e with findings := findings, lastAnalyzed := some now, analyzing := false }
        findingsCache := mapSet st.findingsCache
          (computeCacheKey uri e.contentHash st.configHash) (findings, now) } := by
  simp only [DocumentStore.setFindings, h]

theorem setAnalyzing_spec (st : DocumentStore) (uri : String) (b : Bool) (e : DocEntry)
    (h : st.documents.lookup uri = some e) :
    st.setAnalyzing uri b =
      { st with documents := mapSet st.documents uri { e with analyzing := b } } := by
  simp only [DocumentStore.setAnalyzing, h]

/-- C1 counterexample: a superseded request's outcome is written into the
document store and delivered to the diagnostics sink.  Starting from a
store holding a fresh result `[exFinding]` for the document (also cached
under the current fingerprint), delivering the superseded outcome
overwrites the stored findings with `[]`, overwrites the fresh cache
entry with the stale empty result, and sends an empty diagnostics
message to the sink. -/
theorem C1_counterexample :
    c1SupersededOutcome = { findings := [], error := none } ∧
    exStore.getCachedFindings "file:///a.ts" = some [exFinding] ∧
    (c1After.store.get "file:///a.ts").map DocEntry.findings = some [] ∧
    c1After.store.getCachedFindings "file:///a.ts" = some [] ∧
    c1After.sent = [("file:///a.ts", [])] := by
  decide

/-- C1 (amended): a superseded request is indeed not surfaced as an
error — `analyze` turns the rejection into an empty result with no error
field, so no error diagnostic is produced — but its outcome is not
dropped either: the `triggerAnalysis` continuation writes the empty
findings into the store, stamps the analysis time, re-caches the empty
result under the document's current fingerprint (overwriting any fresh
cached result), and delivers an empty diagnostics set to the sink. -/
theorem C1_superseded_written (provider : String) (codeSmells : Bool)
    (metrics : FileMetrics) (st : DocumentStore) (uri : String) (e : DocEntry)
    (now : ℕ) (h : st.get uri = some e) :
    analyzeCatch provider codeSmells metrics LLMFailure.superseded =
      { findings := [], error := none } ∧
    (handleAnalysisResult now st uri { findings := [], error := none }).2 = (uri, []) ∧
    ∃ e', (handleAnalysisResult now st uri { findings := [], error := none }).1.get uri
        = some e' ∧
      e'.findings = [] ∧ e'.lastAnalyzed = some now ∧ e'.analyzing = false ∧
      (handleAnalysisResult now st uri
          { findings := [], error := none }).1.findingsCache.lookup
        (computeCacheKey uri e.contentHash st.configHash) = some ([], now) := by
  have h' : st.documents.lookup uri = some e := h
  have hst1 := setFindings_spec st uri [] now e h'
  have hl1 : (st.setFindings uri [] now).documents.lookup uri =
      some { e with findings := [], lastAnalyzed := some now, analyzing := false } := by
    rw [hst1]
    exact lookup_mapSet_self _ _ _
  have hst2 := setAnalyzing_spec (st.setFindings uri [] now) uri false _ hl1
  have hmain : (handleAnalysisResult now st uri { findings := [], error := none }).1 =
      (st.setFindings uri [] now).setAnalyzing uri false := rfl
  refine ⟨rfl, rfl, ?_⟩
  refine ⟨{ e with findings := [], lastAnalyzed := some now, analyzing := false },
    ?_, rfl, rfl, rfl, ?_⟩
  · show ((handleAnalysisResult now st uri { findings := [], error := none }).1).documents.lookup
      uri = _
    rw [hmain, hst2]
    simpa using lookup_mapSet_self ((st.setFindings uri [] now).documents) uri _
  · rw [hmain, hst2]
    show (st.setFindings uri [] now).findingsCache.lookup _ = _
    rw [hst1]
    exact lookup_mapSet_self _ _ _

theorem C1_superseded_written_witness :
    exStore.get "file:///a.ts" = some exEntry ∧
    analyzeCatch "openai" true exMetrics LLMFailure.superseded =
      { findings := [], error := none } ∧
    (handleAnalysisResult 500 exStore "file:///a.ts" { findings := [], error := none }).2 =
      ("file:///a.ts", []) ∧
    (∃ e', (handleAnalysisResult 500 exStore "file:///a.ts"
          { findings := [], error := none }).1.get "file:///a.ts" = some e' ∧
      e'.findings = [] ∧ e'.lastAnalyzed = some 500 ∧ e'.analyzing = false ∧
      (handleAnalysisResult 500 exStore "file:///a.ts"
          { findings := [], error := none }).1.findingsCache.lookup
        (computeCacheKey "file:///a.ts" exEntry.contentHash exStore.configHash) =
        some ([], 500)) := by
  have hmain := C1_superseded_written "openai" true exMetrics exStore "file:///a.ts"
    exEntry 500 rfl
  exact ⟨rfl, hmain.1, hmain.2.1, hmain.2.2⟩

/-- C2: evaluation at the failing input.  When every attempt is answered
429 the retry budget (5 rate-limit retries, exponential backoff capped at
30s) is exhausted and `executeLLMRequest` fulfills with the literal
`"[]"` instead of rejecting; `analyze` then parses it into an empty,
error-free result.  The local heuristic—which the code comment at
src/llm/client.ts lines 405-406 claims will run—is never invoked, even
though it would produce a finding for this file (a 60-line function). -/
theorem C2_rate_limit_fallback :
    executeLLMRequest (List.replicate 6 (AttemptOutcome.httpErr 429)) =
      ExecResult.success "[]" [2000, 4000, 8000, 16000, 30000] ∧
    analyzeResult extractEmptyArray 0 "openai" true exMetrics (LLMOutcome.success "[]") =
      { findings := [], error := none } ∧
    (generateLocalFindings true exMetrics).length = 1 := by
  refine ⟨by decide, rfl, by decide⟩

/-- C5 counterexample: a timed-out attempt is retried with no backoff
sleep at all — the wait list is empty — whereas a 5xx attempt at the
same position waits 1000ms; the claim's "attempt-number × 1 second"
backoff does not apply to timeouts. -/
theorem C5_counterexample :
    executeLLMRequest [AttemptOutcome.timeoutErr, AttemptOutcome.ok "R"] =
      ExecResult.success "R" [] ∧
    executeLLMRequest [AttemptOutcome.httpErr 500, AttemptOutcome.ok "R"] =
      ExecResult.success "R" [1000] := by
  exact ⟨rfl, rfl⟩

/-- C5 (amended): 5xx failures are retried with linear backoff of
attempt-number × 1s, up to 3 attempts in total, and exhaustion rejects
with the error; timeouts are also retried up to 3 attempts and exhaustion
rejects with the timeout error, but the retry is immediate, with no
backoff sleep. -/
theorem C5_retry_policy (c : String) :
    executeLLMRequest
        [AttemptOutcome.httpErr 500, AttemptOutcome.httpErr 500, AttemptOutcome.ok c] =
      ExecResult.success c [1000, 2000] ∧
    executeLLMRequest
        [AttemptOutcome.httpErr 500, AttemptOutcome.httpErr 500, AttemptOutcome.httpErr 500] =
      ExecResult.failure (ExecErr.httpErr 500) [1000, 2000] ∧
    executeLLMRequest
        [AttemptOutcome.timeoutErr, AttemptOutcome.timeoutErr, AttemptOutcome.ok c] =
      ExecResult.success c [] ∧
    executeLLMRequest (List.replicate 3 AttemptOutcome.timeoutErr) =
      ExecResult.failure ExecErr.timeoutErr [] := by
  exact ⟨rfl, rfl, rfl, rfl⟩

theorem cleanupStale_eq (q : RequestQueue) (now : ℕ) :
    q.cleanupStaleRequests now =
      ({ q with queue := q.queue.filter (fun x => decide (now - x.timestamp ≤ maxQueueAge)) },
       (q.queue.filter (fun x => decide (maxQueueAge < now - x.timestamp))).map
         (fun x => QEv.rejectedStale x.id x.timestamp)) := by
  simp only [RequestQueue.cleanupStaleRequests]
  split
  · rfl
  · next hlen =>
      have hnil : q.queue.filter (fun x => decide (maxQueueAge < now - x.timestamp)) = [] :=
        List.length_eq_zero.mp (Nat.eq_zero_of_not_pos hlen)
      have hfull : q.queue.filter (fun x => decide (now - x.timestamp ≤ maxQueueAge)) =
          q.queue := by
        apply List.filter_eq_self.mpr
        intro a ha
        have hna := List.filter_eq_nil_iff.mp hnil a ha
        simpa using Nat.le_of_not_lt (by simpa using hna)
      rw [hnil, hfull]
      rfl

theorem processNextGo_subset (now : ℕ) (l : List QReq) :
    ∀ r ∈ (processNextGo now l).1, r ∈ l := by
  induction l with
  | nil => simp [processNextGo]
  | cons a rest ih =>
      simp only [processNextGo]
      split
      · rcases hgo : processNextGo now rest with ⟨q', p', evs⟩
        intro x hx
        refine List.mem_cons_of_mem _ (ih x ?_)
        rw [hgo]
        exact hx
      · intro x hx
        exact List.mem_cons_of_mem _ hx

/-- C4 counterexample: an entry older than the max queue age at the
moment it would start is still executed.  "B" enqueued at t=0 starts at
once; "A" enqueued at t=1 waits behind it; when "B" finishes at t=40000
no further enqueue has swept the queue, so "A" — aged 39999ms, past the
30000ms limit — is started rather than rejected. -/
theorem C4_counterexample :
    ((((RequestQueue.empty.enqueue 0 "B").1.enqueue 1 "A").1).completeCurrent 40000).2 =
      [QEv.started "A" 1 40000] ∧ maxQueueAge < 40000 - 1 := by
  decide

/-- C4 (amended): the stale sweep runs at enqueue time: every entry (of
any key other than the one being enqueued, which is superseded instead)
whose age then exceeds the max queue age is rejected with the
timed-out-in-queue signal, and immediately after an enqueue every entry
still queued is within the age limit.  An entry that outlives the limit
with no subsequent enqueue may still execute (see the counterexample). -/
theorem C4_stale_sweep (q : RequestQueue) (now : ℕ) (id : String) (r : QReq)
    (h1 : r ∈ q.queue) (h2 : r.id ≠ id) (h3 : maxQueueAge < now - r.timestamp) :
    QEv.rejectedStale r.id r.timestamp ∈ (q.enqueue now id).2 ∧
    ∀ r' ∈ (q.enqueue now id).1.queue, now - r'.timestamp ≤ maxQueueAge := by
  have hr1 : r ∈ q.queue.filter (fun x => x.id != id) :=
    List.mem_filter.mpr ⟨h1, by simpa [bne_iff_ne] using h2⟩
  simp only [RequestQueue.enqueue, RequestQueue.cancelById, cleanupStale_eq,
    RequestQueue.processNext]
  constructor
  · apply List.mem_append_left
    apply List.mem_append_right
    exact List.mem_map.mpr ⟨r, List.mem_filter.mpr ⟨hr1, by simpa using h3⟩, rfl⟩
  · intro r' hr'
    have hbase : ∀ x, x ∈ (q.queue.filter (fun y => y.id != id)).filter
          (fun y => decide (now - y.timestamp ≤ maxQueueAge)) ++ [⟨id, now, false⟩] →
        now - x.timestamp ≤ maxQueueAge := by
      intro x hx
      rcases List.mem_append.mp hx with hx | hx
      · simpa using (List.mem_filter.mp hx).2
      · simp only [List.mem_singleton] at hx
        subst hx
        simp
    split at hr'
    · exact hbase r' hr'
    · exact hbase r' (processNextGo_subset now _ r' hr')

theorem C4_stale_sweep_witness :
    (⟨"old", 0, false⟩ : QReq) ∈ ({ queue := [⟨"old", 0, false⟩], processing := true } :
      RequestQueue).queue ∧
    ("old" ≠ "fresh") ∧
    (maxQueueAge < 40000 - 0) ∧
    QEv.rejectedStale "old" 0 ∈
      (RequestQueue.enqueue { queue := [⟨"old", 0, false⟩], processing := true }
        40000 "fresh").2 ∧
    ∀ r' ∈ (RequestQueue.enqueue { queue := [⟨"old", 0, false⟩], processing := true }
        40000 "fresh").1.queue, 40000 - r'.timestamp ≤ maxQueueAge := by
  have h := C4_stale_sweep { queue := [⟨"old", 0, false⟩], processing := true }
    40000 "fresh" ⟨"old", 0, false⟩ (by decide) (by decide) (by decide)
  exact ⟨by decide, by decide, by decide, h.1, h.2⟩

theorem runBurst_pending {α : Type} (waitMs : ℕ) (calls : List (ℕ × α)) :
    ∀ (tp : ℕ) (ap : α),
      List.Chain' (fun p q => p.1 < q.1 ∧ q.1 < p.1 + waitMs) ((tp, ap) :: calls) →
      runBurst waitMs calls ⟨some (tp + waitMs), some ap⟩ =
        ([((calls.getLastD (tp, ap)).1 + waitMs, (calls.getLastD (tp, ap)).2)],
         ⟨none, none⟩) := by
  induction calls with
  | nil =>
      intro tp ap _
      simp [runBurst]
  | cons c rest ih =>
      obtain ⟨t, a⟩ := c
      intro tp ap hchain
      have hrel := (List.chain'_cons.mp hchain).1
      have htail := (List.chain'_cons.mp hchain).2
      have hnotle : ¬ (tp + waitMs ≤ t) := Nat.not_le.mpr hrel.2
      have hstep : runBurst waitMs ((t, a) :: rest) ⟨some (tp + waitMs), some ap⟩ =
          runBurst waitMs rest ⟨some (t + waitMs), some a⟩ := by
        simp only [runBurst, dcall, if_neg hnotle]
        simp
      rw [hstep, ih t a htail, List.getLastD_cons]

/-- C8: for every burst of debounced calls in which each call arrives
strictly after the previous one but before the previous call's timer
expires, the wrapped action runs exactly once, at the last call's time
plus the delay, with the last call's arguments, and the pending-call
record (both timer and stored arguments) is cleared afterwards. -/
theorem C8_debounce {α : Type} (waitMs : ℕ) (first : ℕ × α) (rest : List (ℕ × α))
    (hchain : List.Chain' (fun p q => p.1 < q.1 ∧ q.1 < p.1 + waitMs) (first :: rest)) :
    runBurst waitMs (first :: rest) DebounceState.init =
      ([((rest.getLastD first).1 + waitMs, (rest.getLastD first).2)], ⟨none, none⟩) := by
  obtain ⟨t0, a0⟩ := first
  have hstep : runBurst waitMs ((t0, a0) :: rest) DebounceState.init =
      runBurst waitMs rest ⟨some (t0 + waitMs), some a0⟩ := by
    simp only [runBurst, DebounceState.init, dcall]
    simp
  rw [hstep]
  exact runBurst_pending waitMs rest t0 a0 hchain

theorem C8_debounce_witness :
    List.Chain' (fun p q : ℕ × String => p.1 < q.1 ∧ q.1 < p.1 + 200)
      [(0, "a"), (50, "b"), (100, "c"), (150, "d")] ∧
    runBurst 200 [(0, "a"), (50, "b"), (100, "c"), (150, "d")] DebounceState.init =
      ([(350, "d")], ⟨none, none⟩) := by
  have hch : List.Chain' (fun p q : ℕ × String => p.1 < q.1 ∧ q.1 < p.1 + 200)
      [(0, "a"), (50, "b"), (100, "c"), (150, "d")] := by
    norm_num [List.chain'_cons]
  constructor
  · exact hch
  · rw [C8_debounce 200 (0, "a") [(50, "b"), (100, "c"), (150, "d")] hch]
    decide

/-- C9: for a limiter of capacity 10 per minute, ten `tryAcquire` calls
at t=0 all succeed, the eleventh fails, and at t=6000 exactly one further
call succeeds; moreover a denied `tryAcquire` leaves the state exactly as
the lazy refill left it, and (for any state with non-negative tokens,
rate and capacity, and a non-decreasing clock) the token count stays
within [0, capacity]. -/
theorem C9_rate_limiter (rl : RateLimiter) (now : ℤ)
    (h1 : 0 ≤ rl.tokens) (h2 : 0 ≤ rl.refillRate) (h3 : 0 ≤ rl.maxTokens)
    (h4 : rl.lastRefill ≤ now) :
    (tryAcquireSeq (RateLimiter.create 10 0)
        [0, 0, 0, 0, 0, 0, 0, 0, 0, 0, 0, 6000, 6000]).1 =
      [true, true, true, true, true, true, true, true, true, true, false, true, false] ∧
    ((rl.tryAcquire now).1 = false → (rl.tryAcquire now).2 = rl.refillTokens now) ∧
    (0 ≤ (rl.tryAcquire now).2.tokens ∧ (rl.tryAcquire now).2.tokens ≤ rl.maxTokens) := by
  have helapsed : (0 : ℚ) ≤ ((now - rl.lastRefill : ℤ) : ℚ) := by
    exact_mod_cast Int.sub_nonneg.mpr h4
  have htok0 : 0 ≤ (rl.refillTokens now).tokens := by
    simp only [RateLimiter.refillTokens]
    exact le_min h3 (add_nonneg h1 (mul_nonneg helapsed h2))
  have htokmax : (rl.refillTokens now).tokens ≤ rl.maxTokens := by
    simp only [RateLimiter.refillTokens]
    exact min_le_left _ _
  refine ⟨?_, ?_, ?_⟩
  · norm_num [tryAcquireSeq, RateLimiter.create, RateLimiter.tryAcquire,
      RateLimiter.refillTokens]
  · intro hfalse
    by_cases hc : 1 ≤ (rl.refillTokens now).tokens
    · exfalso
      simp [RateLimiter.tryAcquire, hc] at hfalse
    · simp [RateLimiter.tryAcquire, hc]
  · by_cases hc : 1 ≤ (rl.refillTokens now).tokens
    · constructor
      · simp only [RateLimiter.tryAcquire, if_pos hc]
        linarith
      · simp only [RateLimiter.tryAcquire, if_pos hc]
        linarith
    · constructor
      · simp only [RateLimiter.tryAcquire, if_neg hc]
        exact htok0
      · simp only [RateLimiter.tryAcquire, if_neg hc]
        exact htokmax

theorem C9_rate_limiter_witness :
    ((0 : ℚ) ≤ (RateLimiter.create 10 0).tokens) ∧
    ((0 : ℚ) ≤ (RateLimiter.create 10 0).refillRate) ∧
    ((0 : ℚ) ≤ (RateLimiter.create 10 0).maxTokens) ∧
    ((RateLimiter.create 10 0).lastRefill ≤ (0 : ℤ)) ∧
    (tryAcquireSeq (RateLimiter.create 10 0)
        [0, 0, 0, 0, 0, 0, 0, 0, 0, 0, 0, 6000, 6000]).1 =
      [true, true, true, true, true, true, true, true, true, true, false, true, false] ∧
    (0 ≤ ((RateLimiter.create 10 0).tryAcquire 0).2.tokens ∧
      ((RateLimiter.create 10 0).tryAcquire 0).2.tokens ≤
        (RateLimiter.create 10 0).maxTokens) := by
  have ha : (0 : ℚ) ≤ (RateLimiter.create 10 0).tokens := by
    norm_num [RateLimiter.create]
  have hb : (0 : ℚ) ≤ (RateLimiter.create 10 0).refillRate := by
    norm_num [RateLimiter.create]
  have hc : (0 : ℚ) ≤ (RateLimiter.create 10 0).maxTokens := by
    norm_num [RateLimiter.create]
  have hd : (RateLimiter.create 10 0).lastRefill ≤ (0 : ℤ) := by
    norm_num [RateLimiter.create]
  have h := C9_rate_limiter (RateLimiter.create 10 0) 0 ha hb hc hd
  exact ⟨ha, hb, hc, hd, h.1, h.2.2⟩

theorem decodeRange_valid (j : Json) (r : Range) (h : decodeRange j = some r) :
    rangeSchemaValid r = true := by
  unfold decodeRange at h
  split at h
  · split at h
    · next hcond =>
        obtain rfl := Option.some.inj h
        simpa [rangeSchemaValid] using hcond
    · cases h
  · cases h

theorem decodeFinding_valid (j : Json) (f : Finding) (h : decodeFinding j = some f) :
    findingSchemaValid f = true := by
  unfold decodeFinding at h
  split at h
  · split at h
    · next hcond =>
        split at h
        · obtain rfl := Option.some.inj h
          simpa [findingSchemaValid] using hcond
        · split at h
          · next r hdr =>
              obtain rfl := Option.some.inj h
              have hr := decodeRange_valid _ _ hdr
              simp only [findingSchemaValid]
              simp only [Bool.and_eq_true] at hcond ⊢
              exact ⟨hcond, hr⟩
          · cases h
    · cases h
  · cases h

theorem decodeFindings_valid (xs : List Json) :
    ∀ fs, decodeFindings xs = some fs → ∀ f ∈ fs, findingSchemaValid f = true := by
  induction xs with
  | nil =>
      intro fs h f hf
      simp only [decodeFindings] at h
      obtain rfl := Option.some.inj h
      simp at hf
  | cons j rest ih =>
      intro fs h f hf
      unfold decodeFindings at h
      rcases hd : decodeFinding j with _ | g
      · rw [hd] at h; cases h
      · rw [hd] at h
        rcases hr : decodeFindings rest with _ | gs
        · rw [hr] at h; cases h
        · rw [hr] at h
          obtain rfl := Option.some.inj h
          rcases List.mem_cons.mp hf with rfl | hmem
          · exact decodeFinding_valid j f hd
          · exact ih gs hr f hmem

theorem sanitizeSeverity_mem (raw : Json) :
    severityValues.contains (sanitizeSeverity raw) = true := by
  unfold sanitizeSeverity
  split
  · split
    · next hin => exact hin
    · decide
  · decide

theorem sanitizeCategory_mem (raw : Json) :
    categoryValues.contains (sanitizeCategory raw) = true := by
  unfold sanitizeCategory
  split
  · split
    · next hin => exact hin
    · decide
  · decide

theorem sanitizeConfidence_bounds (raw : Json) :
    0 ≤ sanitizeConfidence raw ∧ sanitizeConfidence raw ≤ 1 := by
  unfold sanitizeConfidence
  split
  · exact ⟨le_max_left 0 _, max_le (by norm_num) (min_le_left 1 _)⟩
  · norm_num

theorem isNonnegInt_intCast_max (x : ℤ) : isNonnegInt ((max 0 x : ℤ) : ℚ) = true := by
  unfold isNonnegInt
  rw [Bool.and_eq_true]
  constructor
  · rw [beq_iff_eq]
    exact Rat.den_intCast _
  · rw [decide_eq_true_eq]
    exact_mod_cast le_max_left 0 x

theorem sanitizeRange_valid (raw : Json) (r : Range) (h : sanitizeRange raw = some r) :
    rangeSchemaValid r = true := by
  unfold sanitizeRange at h
  split at h
  · split at h
    · split at h
      · obtain rfl := Option.some.inj h
        simp only [rangeSchemaValid, isNonnegInt_intCast_max, Bool.and_self]
      · cases h
    · cases h
  · cases h

theorem sanitizeFinding_valid (counter : ℕ) (raw : Json) (f : Finding) (c' : ℕ)
    (h : sanitizeFinding counter raw = (some f, c')) :
    findingSchemaValid f = true := by
  simp only [sanitizeFinding] at h
  split at h
  · split at h
    · simp at h
    · have hf := congrArg Prod.fst h
      obtain rfl := Option.some.inj hf
      have hs := sanitizeSeverity_mem raw
      have hc := sanitizeCategory_mem raw
      have hcf := sanitizeConfidence_bounds raw
      simp only [findingSchemaValid]
      cases hr : sanitizeRange raw with
      | none =>
          simp only [hr, hs, hc, Bool.and_true, Bool.true_and, Bool.and_eq_true,
            decide_eq_true_eq]
          exact ⟨hcf.1, hcf.2⟩
      | some r =>
          simp only [hr, hs, hc, sanitizeRange_valid raw r hr, Bool.and_true,
            Bool.true_and, Bool.and_eq_true, decide_eq_true_eq]
          exact ⟨hcf.1, hcf.2⟩
  · simp at h

theorem salvageAll_valid (xs : List Json) :
    ∀ (counter : ℕ) (f : Finding), f ∈ (salvageAll counter xs).1 →
      findingSchemaValid f = true := by
  induction xs with
  | nil =>
      intro c f hf
      simp [salvageAll] at hf
  | cons j rest ih =>
      intro c f hf
      rcases hs : sanitizeFinding c j with ⟨of, c2⟩
      cases of with
      | some g =>
          rcases hrest : salvageAll c2 rest with ⟨fs, c3⟩
          have heq : (salvageAll c (j :: rest)).1 = g :: fs := by
            simp [salvageAll, hs, hrest]
          rw [heq] at hf
          rcases List.mem_cons.mp hf with rfl | hmem
          · exact sanitizeFinding_valid c j f c2 hs
          · exact ih c2 f (by rw [hrest]; exact hmem)
      | none =>
          have heq : (salvageAll c (j :: rest)).1 = (salvageAll c2 rest).1 := by
            simp [salvageAll, hs]
          rw [heq] at hf
          exact ih c2 f hf

/-- C10: for every extraction outcome and every input string,
`parseResponse` returns only schema-valid findings — severity and
category drawn from their enumerations, confidence within [0,1], ranges
with non-negative integer fields — whether they come from the zod
validation path or from the salvage path; and when JSON extraction fails
entirely the findings list is empty and a parse error is reported.
(`parseResponse` is total by construction, the embedding's counterpart of
"never throws".) -/
theorem C10_parse_safety (extract : String → Option Json) (counter : ℕ) (s : String) :
    (∀ f ∈ (parseResponse extract counter s).1.findings, findingSchemaValid f = true) ∧
    (extract s = none →
      (parseResponse extract counter s).1.findings = [] ∧
      (parseResponse extract counter s).1.parseError =
        some "Failed to extract JSON from LLM response") := by
  constructor
  · intro f hf
    simp only [parseResponse] at hf
    split at hf
    · simp at hf
    · split at hf
      · next fs hd =>
          exact decodeFindings_valid _ fs hd f hf
      · next hd =>
          split at hf
          · exact salvageAll_valid _ counter f hf
          · simp at hf
  · intro he
    unfold parseResponse
    rw [he]
    exact ⟨rfl, rfl⟩

theorem C10_parse_safety_witness :
    ((fun _ : String => (none : Option Json)) "not json" = none) ∧
    (parseResponse (fun _ => none) 0 "not json").1.findings = [] ∧
    (parseResponse (fun _ => none) 0 "not json").1.parseError =
      some "Failed to extract JSON from LLM response" :=
  ⟨rfl, (C10_parse_safety (fun _ => none) 0 "not json").2 rfl⟩

end Lintai
